import Mathlib

/-!
Verification development for the ts-function-tester repository.

The repository has two core components:
* `CodeParser.parseFunctions` (src/codeParser.ts): walks a TypeScript syntax
  tree and emits a `FunctionInfo` descriptor for every recognized callable.
* `CodeExecutor.executeFunction` (codeExecutor source file): transpiles the
  descriptor source, defines it in a fresh vm sandbox, materializes raw
  argument strings inside the sandbox, invokes the entry, optionally chains
  into a returned callable, and serializes the outcome with timing.
  `CodeExecutor.parseArgumentValue` is the standalone coercion utility.

The embedding is shallow.  JavaScript evaluation steps that the engine
delegates to the host runtime (eval, JSON.parse, Number, the TypeScript
transpiler, the vm invocations) are abstracted as an oracle record
`JsOracle`; every control decision the engine itself makes (trimming,
branch order, splitting, the spread test, the follow-up chain, the outer
catch, serialization) is translated directly from the source.  String
scanning is implemented over character lists so that closed instances
reduce inside the kernel.
-/

/-! ### Character-list string primitives

These mirror the JavaScript string operations the source uses
(trim, includes, startsWith, endsWith, split, toLowerCase, substring). -/

def isWhite (c : Char) : Bool := c = ' ' || c = '\t' || c = '\n' || c = '\r'

def trimL (l : List Char) : List Char :=
  ((l.dropWhile isWhite).reverse.dropWhile isWhite).reverse

/-- JavaScript `value.trim()`. -/
def strTrim (s : String) : String := ⟨trimL s.data⟩

def isPrefixL : List Char → List Char → Bool
  | [], _ => true
  | _ :: _, [] => false
  | p :: ps, c :: cs => p = c && isPrefixL ps cs

def containsSubL : List Char → List Char → Bool
  | l, pat =>
    if isPrefixL pat l then true
    else match l with
      | [] => false
      | _ :: t => containsSubL t pat

/-- JavaScript `s.includes(pat)` for a multi-character pattern. -/
def strContainsSub (s pat : String) : Bool := containsSubL s.data pat.data

/-- JavaScript `s.startsWith(pat)`. -/
def strStartsWith (s pat : String) : Bool := isPrefixL pat.data s.data

/-- JavaScript `s.endsWith(pat)`. -/
def strEndsWith (s pat : String) : Bool := isPrefixL pat.data.reverse s.data.reverse

def splitOnCharL (sep : Char) : List Char → List (List Char)
  | [] => [[]]
  | c :: cs =>
    let rest := splitOnCharL sep cs
    if c = sep then [] :: rest
    else match rest with
      | [] => [[c]]
      | h :: t => (c :: h) :: t

/-- JavaScript `s.split(',')`: splits at every comma, with no bracket
awareness; an empty string yields one empty piece. -/
def strSplitComma (s : String) : List String := (splitOnCharL ',' s.data).map (fun l => ⟨l⟩)

def lowerChar (c : Char) : Char :=
  if 65 ≤ c.toNat ∧ c.toNat ≤ 90 then Char.ofNat (c.toNat + 32) else c

/-- JavaScript `s.toLowerCase()` (ASCII range, which is all the source compares). -/
def strLower (s : String) : String := ⟨s.data.map lowerChar⟩

/-! ### JavaScript runtime values

A first-order model of the values that flow through the engine.  Arrays and
objects carry their elements through the mutually defined list types so that
all recursion below stays structural (and hence reduces in the kernel). -/

inductive JsNumber where
  | nan
  | inf
  | negInf
  | int (i : Int)
deriving DecidableEq

mutual
inductive JsValue where
  | undef
  | null
  | bool (b : Bool)
  | num (n : JsNumber)
  | str (s : String)
  | arr (elems : JsValueList)
  | obj (fields : JsFields)
  | func (src : String)
  | jserr (message : String) (stack : String)
  | date (time : Int)
deriving DecidableEq

inductive JsValueList where
  | nil
  | cons (v : JsValue) (vs : JsValueList)
deriving DecidableEq

inductive JsFields where
  | nil
  | cons (key : String) (v : JsValue) (fs : JsFields)
deriving DecidableEq
end

def jsList : List JsValue → JsValueList
  | [] => .nil
  | v :: vs => .cons v (jsList vs)

def jsToList : JsValueList → List JsValue
  | .nil => []
  | .cons v vs => v :: jsToList vs

/-- Shorthand for an integral JavaScript number value. -/
def jn (i : Int) : JsValue := .num (.int i)

def jsIsNan : JsNumber → Bool
  | .nan => true
  | _ => false

/-! ### The host-runtime oracle

Every JavaScript evaluation the executor delegates to the host runtime,
abstracted as a record of functions.  `Option` results model calls that may
throw (`none` = an exception was thrown); `Except String` results keep the
thrown message because the engine reports it. -/

structure JsOracle where
  /-- `ts.transpileModule` inside `transpileTypeScript`; may throw. -/
  transpileModule : String → Except String String
  /-- The regex cleanup chain applied to transpiler output inside the
  sandbox argument parser (strip "use strict", defineProperty, esModule
  markers, the trailing semicolon, then trim). -/
  cleanOutput : String → String
  /-- `eval('(' ++ code ++ ')')` on the given inner code, in scope. -/
  evalParen : String → Option JsValue
  /-- `eval(code)` on the given code, in scope. -/
  evalRaw : String → Option JsValue
  /-- `JSON.parse(text)`; `none` when it throws. -/
  jsonParse : String → Option JsValue
  /-- `Number(text)` coercion of the full text. -/
  toNumber : String → JsNumber
  /-- `new Date(text).getTime()` when the result is a valid date. -/
  parseDate : String → Option Int
  /-- The regex extraction `_tempArray = ([^;]+);` on transpiler output. -/
  matchTempArray : String → Option String
  /-- The three-regex extraction chain for `_tempFunc = ...` on transpiler output. -/
  matchTempFunc : String → Option String
  /-- The arrow regex `(params) => body` split used before `new Function`. -/
  matchArrow : String → Option (String × String)
  /-- `new Function(params, "return " ++ body)`; `none` when it throws. -/
  mkFunction : String → String → Option JsValue
  /-- Phase 1: `new vm.Script(jsCode)` plus `script.runInContext(context)`,
  which binds the declared names into the fresh context. -/
  runDefine : String → Except String Unit
  /-- `functionName.toString()` evaluated in the context that defined
  `jsCode`; throws a ReferenceError when the entry name is unbound. -/
  funcSource : String → String → Except String String
  /-- Invoking the named entry in the context of `jsCode` with the given
  argument list (awaited when async or thenable); `.error` is a throw or
  a rejection. -/
  invokeEntry : String → String → Bool → List JsValue → Except String JsValue
  /-- Invoking a returned callable (identified by its source text) with the
  given argument list, again awaited; `.error` is a throw or rejection. -/
  invokeFunc : String → Bool → List JsValue → Except String JsValue
  /-- `Date.prototype.toJSON` (ISO rendering) used by the JSON round trip. -/
  isoOfDate : Int → String

/-- The sandbox helper `_transpileTS`: transpile, but hand back the original
code when the transpiler throws. -/
def transpileTS (o : JsOracle) (code : String) : String :=
  match o.transpileModule code with
  | .ok out => out
  | .error _ => code

/-- The typed-text test used both in the sandbox argument parser and in
`parseArgumentValue`: `trimmed.includes(':') || trimmed.includes('item is')`. -/
def hasTypeAnn (t : String) : Bool := t.data.contains ':' || strContainsSub t "item is"

def isQuoted (t : String) : Bool :=
  (strStartsWith t "\"" && strEndsWith t "\"") ||
  (strStartsWith t "\x27" && strEndsWith t "\x27")

/-- `trimmed.slice(1, -1)`. -/
def stripQuotes (t : String) : String := ⟨(t.data.drop 1).dropLast⟩

/-! ### The in-sandbox argument materialization chain

Translation of the `parsedArgs` mapper of the execution script: blank text
becomes `undefined`; typed text is transpiled and cleaned; the code is
evaluated as a parenthesized expression; on failure object/array-shaped text
is JSON-parsed; then the literal keywords; then `Number` coercion; then
fully wrapping quotes are stripped; finally the trimmed text itself. -/

def parseSandboxArg (o : JsOracle) (value : String) : JsValue :=
  let trimmed := strTrim value
  if trimmed = "" then .undef
  else
    let codeToEval := if hasTypeAnn trimmed then o.cleanOutput (transpileTS o trimmed) else trimmed
    match o.evalParen codeToEval with
    | some v => v
    | none =>
      match (if strStartsWith trimmed "\x7b" || strStartsWith trimmed "[" then o.jsonParse trimmed else none) with
      | some v => v
      | none =>
        if trimmed = "true" then .bool true
        else if trimmed = "false" then .bool false
        else if trimmed = "null" then .null
        else if trimmed = "undefined" then .undef
        else if trimmed = "NaN" then .num .nan
        else if trimmed = "Infinity" then .num .inf
        else
          match o.toNumber trimmed with
          | .nan =>
            if isQuoted trimmed then .str (stripQuotes trimmed) else .str trimmed
          | n => .num n

/-- One follow-up piece: `Number`, then `JSON.parse`, then the trimmed text. -/
def parseTestArg (o : JsOracle) (arg : String) : JsValue :=
  let trimmed := strTrim arg
  match o.toNumber trimmed with
  | .nan =>
    match o.jsonParse trimmed with
    | some v => v
    | none => .str trimmed
  | n => .num n

/-- The follow-up argument list: `_testArgsStr.split(',')` mapped through
`parseTestArg`.  The split is a plain comma split. -/
def followUpValues (o : JsOracle) (s : String) : List JsValue :=
  (strSplitComma s).map (parseTestArg o)

/-- The call-shape step: spread a single array argument when the entry
source text (`funcStr = fn.toString()`) contains the substring "..."
anywhere, otherwise pass the materialized arguments positionally. -/
def determineCallArgs (funcStr : String) : List JsValue → List JsValue
  | [JsValue.arr xs] =>
    if strContainsSub funcStr "..." then jsToList xs else [JsValue.arr xs]
  | args => args

/-! ### Serialization -/

/-- Truncated source preview of a returned callable:
`funcStr.length > 150 ? funcStr.substring(0, 150) + '...' : funcStr`. -/
def sourcePreview (s : String) : String :=
  if s.data.length > 150 then (⟨s.data.take 150⟩ : String) ++ "..." else s

mutual
/-- One JSON round-trip step (`JSON.parse(JSON.stringify(v))`): drops
function-valued and undefined members, replaces them by `null` inside
arrays, renders NaN and the infinities as `null` and dates as ISO text. -/
def jsonData (o : JsOracle) : JsValue → Option JsValue
  | .undef => none
  | .func _ => none
  | .null => some .null
  | .bool b => some (.bool b)
  | .str s => some (.str s)
  | .num (.int i) => some (.num (.int i))
  | .num _ => some .null
  | .date t => some (.str (o.isoOfDate t))
  | .jserr _ _ => some (.obj .nil)
  | .arr vs => some (.arr (jsonDataList o vs))
  | .obj fs => some (.obj (jsonDataFields o fs))

def jsonDataList (o : JsOracle) : JsValueList → JsValueList
  | .nil => .nil
  | .cons v vs => .cons ((jsonData o v).getD .null) (jsonDataList o vs)

def jsonDataFields (o : JsOracle) : JsFields → JsFields
  | .nil => .nil
  | .cons k v fs =>
    match jsonData o v with
    | some w => .cons k w (jsonDataFields o fs)
    | none => jsonDataFields o fs
end

/-- `serializeResult`: undefined and null become labels, a callable becomes
a record with a truncated source preview, an Error becomes a structured
record, plain objects take a JSON round trip, primitives pass through. -/
def serializeResult (o : JsOracle) : JsValue → JsValue
  | .undef => .str "undefined"
  | .null => .str "null"
  | .func src =>
    .obj (.cons "_type" (.str "function")
         (.cons "_hint" (.str "返回了一个函数（高阶函数）")
         (.cons "_source" (.str (sourcePreview src))
         (.cons "_suggestion" (.str "提示：这是一个高阶函数，返回了另一个函数。如需测试返回的函数，请创建一个包装函数。") .nil))))
  | .jserr m st =>
    .obj (.cons "type" (.str "Error") (.cons "message" (.str m) (.cons "stack" (.str st) .nil)))
  | .arr vs => .arr (jsonDataList o vs)
  | .obj fs => .obj (jsonDataFields o fs)
  | .date t => .str (o.isoOfDate t)
  | .bool b => .bool b
  | .num n => .num n
  | .str s => .str s

/-! ### The execute operation -/

/-- One caller-supplied argument: the raw text and the declared type. -/
structure ArgWithType where
  value : String
  type : String
deriving DecidableEq

/-- The request shape of `executeFunction`. -/
structure ExecuteRequest where
  functionCode : String
  functionName : String
  argsWithTypes : List ArgWithType
  isAsync : Bool
  testArgs : Option String
deriving DecidableEq

/-- The outcome record: `{success, result?, error?, executionTime}`. -/
structure ExecutionResult where
  success : Bool
  result : Option JsValue
  error : Option String
  executionTime : Int
deriving DecidableEq

/-- The allow-list of host capabilities bound into a fresh sandbox by
`createSandbox` (key names of the sandbox object). -/
def sandboxGlobalNames : List String :=
  ["console", "setTimeout", "setInterval", "clearTimeout", "clearInterval",
   "Promise", "Array", "Object", "String", "Number", "Boolean", "Date",
   "Math", "JSON", "RegExp", "Set", "Map", "WeakMap", "WeakSet", "Symbol",
   "Error", "TypeError", "RangeError", "SyntaxError", "ReferenceError",
   "parseInt", "parseFloat", "isNaN", "isFinite", "encodeURI", "decodeURI",
   "encodeURIComponent", "decodeURIComponent",
   "undefined", "null", "NaN", "Infinity"]

/-- The per-call evaluation context: the allow-listed globals plus the four
values the executor injects (`_transpileTS`, `_argsData`, `_testArgsStr`,
`_functionName`).  Built fresh from the request on every call. -/
structure SandboxContext where
  globalNames : List String
  argsData : List String
  testArgsStr : String
  functionName : String
deriving DecidableEq

def buildContext (r : ExecuteRequest) : SandboxContext :=
  { globalNames := sandboxGlobalNames ++ ["_transpileTS", "_argsData", "_testArgsStr", "_functionName"],
    argsData := r.argsWithTypes.map (fun a => a.value),
    testArgsStr := r.testArgs.getD "",
    functionName := r.functionName }

/-- Phase 2 of `executeFunction`: the execution script run in the same
context as Phase 1.  Materializes the raw argument strings, reads the entry
source via `toString`, applies the spread adaptation, invokes the entry,
and, when the (awaited) result is a callable and a non-blank follow-up
string was supplied, splits the string at every comma, materializes the
pieces, and invokes the returned callable with them. -/
def phase2 (o : JsOracle) (jsCode : String) (ctx : SandboxContext) (isAsync : Bool) :
    Except String JsValue :=
  let parsedArgs := ctx.argsData.map (parseSandboxArg o)
  match o.funcSource jsCode ctx.functionName with
  | .error e => .error e
  | .ok funcStr =>
    match o.invokeEntry jsCode ctx.functionName isAsync (determineCallArgs funcStr parsedArgs) with
    | .error e => .error e
    | .ok result =>
      match result with
      | .func fsrc =>
        if ctx.testArgsStr ≠ "" ∧ strTrim ctx.testArgsStr ≠ "" then
          o.invokeFunc fsrc isAsync (followUpValues o ctx.testArgsStr)
        else .ok (JsValue.func fsrc)
      | r => .ok r

/-- `executeFunction`: transpile, define in a fresh context, run Phase 2,
serialize, and convert any failure along the way to a failed outcome at the
outer catch.  `startTime` and `endTime` are the two `Date.now()` readings. -/
def executeFunction (o : JsOracle) (r : ExecuteRequest) (startTime endTime : Int) :
    ExecutionResult :=
  let ctx := buildContext r
  let attempt : Except String JsValue :=
    match o.transpileModule r.functionCode with
    | .error e => .error e
    | .ok jsCode =>
      match o.runDefine jsCode with
      | .error e => .error e
      | .ok _ => phase2 o jsCode ctx r.isAsync
  match attempt with
  | .ok v =>
    { success := true, result := some (serializeResult o v), error := none,
      executionTime := endTime - startTime }
  | .error e =>
    { success := false, result := none, error := some e,
      executionTime := endTime - startTime }

/-- The `CodeExecutor` class declares no instance fields, so the state an
instance carries across calls is trivial. -/
def ExecutorState : Type := Unit

/-- `executeFunction` as a method on the (stateless) executor instance. -/
def executeFunctionSt (o : JsOracle) (s : ExecutorState) (r : ExecuteRequest)
    (startTime endTime : Int) : ExecutionResult × ExecutorState :=
  (executeFunction o r startTime endTime, s)

/-- Two execute calls on the same executor instance, run back to back. -/
def execTwice (o : JsOracle) (s : ExecutorState) (r₁ r₂ : ExecuteRequest)
    (a0 a1 b0 b1 : Int) : (ExecutionResult × ExecutionResult) × ExecutorState :=
  let p₁ := executeFunctionSt o s r₁ a0 a1
  let p₂ := executeFunctionSt o p₁.2 r₂ b0 b1
  ((p₁.1, p₂.1), p₂.2)

/-! ### The standalone coercion utility `parseArgumentValue`

Translation of `CodeExecutor.parseArgumentValue(value, type)`.  The whole
body sits in a try/catch whose catch returns the trimmed text, so a throw
from the strict JSON branch degrades to the raw text; the function-array,
constructor-call and function-type branches have their own inner catches
with different fallbacks, translated faithfully below. -/

/-- The guard of the function-type branch:
`type.includes('=>') || type.startsWith('(') || type.includes('item is')`. -/
def looksFnType (ty : String) : Bool :=
  strContainsSub ty "=>" || strStartsWith ty "(" || strContainsSub ty "item is"

/-- The guard of the date branch: `type === 'Date' || type.includes('Date')`. -/
def looksDateType (ty : String) : Bool := ty = "Date" || strContainsSub ty "Date"

/-- The function-array branch (step 1): on typed text, wrap, transpile and
regex-extract the array; then `eval` the code.  Any throw inside the branch
is caught and control falls through to the JSON branch. -/
def coerceFuncArray (o : JsOracle) (t : String) : Option JsValue :=
  if strStartsWith t "[" && (strContainsSub t "=>" || strContainsSub t "function") then
    match (if hasTypeAnn t then
             (o.transpileModule ("const _tempArray = " ++ t ++ ";")).toOption.map
               (fun tr => (o.matchTempArray tr).getD t)
           else some t) with
    | none => none
    | some jsCode => o.evalRaw jsCode
  else none

/-- The function-type branch (step 7): transpile typed text (keeping the
original on a transpiler throw), then try `eval('(' ++ code ++ ')')`, then
`eval(code)`, then the arrow-regex plus `new Function` reconstruction; a
non-function result, or total failure, yields `null`. -/
def coerceFunction (o : JsOracle) (t : String) : JsValue :=
  if strContainsSub t "=>" || strStartsWith t "function" then
    let jsCode :=
      if hasTypeAnn t then
        match o.transpileModule ("const _tempFunc = " ++ t ++ ";") with
        | .error _ => t
        | .ok tr => (o.matchTempFunc tr).getD t
      else t
    let fn : Option JsValue :=
      match o.evalParen jsCode with
      | some f => some f
      | none =>
        match o.evalRaw jsCode with
        | some f => some f
        | none =>
          match o.matchArrow jsCode with
          | some pb => o.mkFunction pb.1 pb.2
          | none => none
    match fn with
    | some (.func fsrc) => .func fsrc
    | _ => .null
  else .null

def parseArgumentValue (o : JsOracle) (value : String) (ty : String) : JsValue :=
  if value = "" ∨ strTrim value = "" then .undef
  else
    let t := strTrim value
    match coerceFuncArray o t with
    | some v => v
    | none =>
      if strStartsWith t "\x7b" || strStartsWith t "[" then
        match o.jsonParse t with
        | some v => v
        | none => .str t
      else if t = "true" then .bool true
      else if t = "false" then .bool false
      else if t = "null" then .null
      else if t = "undefined" then .undef
      else if t = "NaN" then .num .nan
      else if t = "Infinity" then .num .inf
      else if t = "-Infinity" then .num .negInf
      else
        match (if looksDateType ty then o.parseDate t else none) with
        | some d => .date d
        | none =>
          if strStartsWith t "new " then
            match o.evalRaw t with
            | some v => v
            | none => .null
          else if looksFnType ty then
            coerceFunction o t
          else
            let num := o.toNumber t
            let tail := if isQuoted t then JsValue.str (stripQuotes t) else .str t
            if strLower ty = "number" || !(jsIsNan num) then
              match num with
              | .nan => tail
              | n => .num n
            else tail

/-! ### The signature extractor `CodeParser.parseFunctions`

The syntax tree is modeled by `TsNode`: the shapes the visitor recognizes
(function declarations, variable statements, class declarations) carry the
fields the extractor reads, and every node carries the child list that
`ts.forEachChild` hands to the recursive visitor — including the children
of function bodies, so the visitor descends into nested scopes. -/

/-- One parameter node: the literal name text, the optional annotation
text, and whether a question token is present (the extractor reads exactly
these three things). -/
structure ParamNode where
  nameText : String
  typeText : Option String
  question : Bool
deriving DecidableEq

/-- The `{name, type, optional}` record of a descriptor parameter. -/
structure ParameterInfo where
  name : String
  type : String
  optional : Bool
deriving DecidableEq

/-- The shared parameter extraction: the name text, the annotation text or
the sentinel "any", and optionality from the question token. -/
def paramInfoOf (p : ParamNode) : ParameterInfo :=
  ⟨p.nameText, p.typeText.getD "any", p.question⟩

/-- A variable-declaration initializer as the visitor classifies it. -/
inductive InitNode where
  | arrowFunction (params : List ParamNode) (retType : Option String) (isAsync : Bool)
  | functionExpression (params : List ParamNode) (retType : Option String) (isAsync : Bool)
  | otherInit
deriving DecidableEq

structure VarDeclNode where
  nameText : String
  initializer : Option InitNode
  startLine : Nat
  endLine : Nat
  text : String
deriving DecidableEq

/-- A class member as the class branch classifies it. -/
inductive MemberNode where
  | ctorMember (params : List ParamNode)
  | methodMember (nameText : String) (params : List ParamNode) (retType : Option String)
      (isAsync : Bool) (startLine : Nat) (endLine : Nat) (text : String)
  | otherMember
deriving DecidableEq

mutual
inductive TsNode where
  | funcDecl (name : Option String) (params : List ParamNode) (retType : Option String)
      (isAsync : Bool) (startLine : Nat) (endLine : Nat) (text : String) (children : TsNodeList)
  | varStmt (decls : List VarDeclNode) (children : TsNodeList)
  | classDecl (name : Option String) (members : List MemberNode)
      (startLine : Nat) (endLine : Nat) (text : String) (children : TsNodeList)
  | otherNode (children : TsNodeList)

inductive TsNodeList where
  | nil
  | cons (n : TsNode) (ns : TsNodeList)
end

/-- The `FunctionInfo` descriptor.  Line numbers are 1-based (the extractor
adds 1 to the 0-based positions of the parse tree). -/
structure FunctionInfo where
  name : String
  parameters : List ParameterInfo
  returnType : String
  startLine : Nat
  endLine : Nat
  fullText : String
  isAsync : Bool
  isClass : Bool := false
  className : Option String := none
deriving DecidableEq

/-- `extractFunctionInfo` for a named function declaration. -/
def extractFunctionInfo (n : String) (ps : List ParamNode) (rt : Option String)
    (isAsync : Bool) (s e : Nat) (txt : String) : FunctionInfo :=
  { name := n, parameters := ps.map paramInfoOf, returnType := rt.getD "any",
    startLine := s + 1, endLine := e + 1, fullText := txt, isAsync := isAsync }

/-- `extractFunctionFromVariable`: a descriptor when the initializer is an
arrow function or a function expression, nothing otherwise. -/
def extractFunctionFromVariable (d : VarDeclNode) : Option FunctionInfo :=
  match d.initializer with
  | some (.arrowFunction ps rt a) | some (.functionExpression ps rt a) =>
    some { name := d.nameText, parameters := ps.map paramInfoOf,
           returnType := rt.getD "any", startLine := d.startLine + 1,
           endLine := d.endLine + 1, fullText := d.text, isAsync := a }
  | _ => none

/-- `node.members.find(isConstructorDeclaration)`: the parameters of the
first constructor member, or the empty list when none is declared. -/
def firstCtorParams : List MemberNode → List ParamNode
  | [] => []
  | .ctorMember ps :: _ => ps
  | _ :: rest => firstCtorParams rest

/-- `extractClassInfo`: the synthetic constructor-kind descriptor of a
class — name and return type are the class name, parameters come from the
declared constructor (or are empty). -/
def extractClassInfo (className : String) (ms : List MemberNode)
    (s e : Nat) (txt : String) : FunctionInfo :=
  { name := className, parameters := (firstCtorParams ms).map paramInfoOf,
    returnType := className, startLine := s + 1, endLine := e + 1,
    fullText := txt, isAsync := false, isClass := true }

/-- `extractMethodInfo`: a method-kind descriptor with the qualified name
`ClassName.method`; non-method members yield nothing. -/
def extractMethodInfo (className : String) : MemberNode → Option FunctionInfo
  | .methodMember n ps rt a s e txt =>
    some { name := className ++ "." ++ n, parameters := ps.map paramInfoOf,
           returnType := rt.getD "any", startLine := s + 1, endLine := e + 1,
           fullText := txt, isAsync := a, className := some className }
  | _ => none

mutual
/-- The recursive visitor of `parseFunctions`: push the emissions of the
node itself, then recurse into every child (`ts.forEachChild`). -/
def visitNode : TsNode → List FunctionInfo
  | .funcDecl (some n) ps rt a s e txt cs =>
    extractFunctionInfo n ps rt a s e txt :: visitList cs
  | .funcDecl none _ _ _ _ _ _ cs => visitList cs
  | .varStmt decls cs => decls.filterMap extractFunctionFromVariable ++ visitList cs
  | .classDecl (some cn) ms s e txt cs =>
    (extractClassInfo cn ms s e txt :: ms.filterMap (extractMethodInfo cn)) ++ visitList cs
  | .classDecl none _ _ _ _ cs => visitList cs
  | .otherNode cs => visitList cs

def visitList : TsNodeList → List FunctionInfo
  | .nil => []
  | .cons n ns => visitNode n ++ visitList ns
end

/-- `parseFunctions(sourceCode, fileName)`: `ts.createSourceFile` is the
parse oracle; a throw there propagates to the caller unhandled (the method
body has no catch), a successful parse is walked by the visitor. -/
def parseFunctions (parse : String → Except String TsNode) (sourceCode : String) :
    Except String (List FunctionInfo) :=
  match parse sourceCode with
  | .error e => .error e
  | .ok sourceFile => .ok (visitNode sourceFile)

/-! ### Analysis helpers over the syntax-tree model -/

mutual
/-- The names of all named function declarations, at any depth, in document
(preorder) order. -/
def funcDeclNames : TsNode → List String
  | .funcDecl (some n) _ _ _ _ _ _ cs => n :: funcDeclNamesList cs
  | .funcDecl none _ _ _ _ _ _ cs => funcDeclNamesList cs
  | .varStmt _ cs => funcDeclNamesList cs
  | .classDecl _ _ _ _ _ cs => funcDeclNamesList cs
  | .otherNode cs => funcDeclNamesList cs

def funcDeclNamesList : TsNodeList → List String
  | .nil => []
  | .cons n ns => funcDeclNames n ++ funcDeclNamesList ns
end

mutual
/-- Whether the tree contains a class declaration anywhere. -/
def hasClassDecl : TsNode → Bool
  | .classDecl _ _ _ _ _ _ => true
  | .funcDecl _ _ _ _ _ _ _ cs => hasClassDeclList cs
  | .varStmt _ cs => hasClassDeclList cs
  | .otherNode cs => hasClassDeclList cs

def hasClassDeclList : TsNodeList → Bool
  | .nil => false
  | .cons n ns => hasClassDecl n || hasClassDeclList ns
end

def isFuncInit : Option InitNode → Bool
  | some (.arrowFunction _ _ _) => true
  | some (.functionExpression _ _ _) => true
  | _ => false

mutual
/-- Whether the tree contains a variable declaration bound to an arrow
function or function expression anywhere. -/
def hasFuncVar : TsNode → Bool
  | .varStmt decls cs => decls.any (fun d => isFuncInit d.initializer) || hasFuncVarList cs
  | .funcDecl _ _ _ _ _ _ _ cs => hasFuncVarList cs
  | .classDecl _ _ _ _ _ cs => hasFuncVarList cs
  | .otherNode cs => hasFuncVarList cs

def hasFuncVarList : TsNodeList → Bool
  | .nil => false
  | .cons n ns => hasFuncVar n || hasFuncVarList ns
end

def TsNode.children : TsNode → TsNodeList
  | .funcDecl _ _ _ _ _ _ _ cs => cs
  | .varStmt _ cs => cs
  | .classDecl _ _ _ _ _ cs => cs
  | .otherNode cs => cs

def countTopLevelFuncDecls : TsNodeList → Nat
  | .nil => 0
  | .cons (.funcDecl (some _) _ _ _ _ _ _ _) ns => countTopLevelFuncDecls ns + 1
  | .cons _ ns => countTopLevelFuncDecls ns

/-- The number of named function declarations among the immediate children
of the source-file node — the top-level declarations of the source. -/
def topLevelFuncDeclCount (sourceFile : TsNode) : Nat :=
  countTopLevelFuncDecls sourceFile.children

/-- The names of the method members of a class, in member order. -/
def methodNames : List MemberNode → List String
  | [] => []
  | .methodMember n _ _ _ _ _ _ :: rest => n :: methodNames rest
  | _ :: rest => methodNames rest

/-! ### Definitions modelled from the claim wording (for refinement checks) -/

/-- Modelled from the spec: a declared parameter is variadic (a rest
parameter) when its declaration text begins with "...".  The final
parameter of a callable is variadic when its last parameter is. -/
def specFinalParamVariadic (paramTexts : List String) : Bool :=
  match paramTexts.getLast? with
  | some t => strStartsWith t "..."
  | none => false

def bracketDepthStep (d : Nat) (c : Char) : Nat :=
  if c = '[' || c = '\x7b' || c = '(' then d + 1
  else if c = ']' || c = '\x7d' || c = ')' then d - 1
  else d

def topLevelSplitL : List Char → Nat → List Char → List String
  | [], _, acc => [⟨acc.reverse⟩]
  | c :: rest, d, acc =>
    if c = ',' ∧ d = 0 then (⟨acc.reverse⟩ : String) :: topLevelSplitL rest 0 []
    else topLevelSplitL rest (bracketDepthStep d c) (c :: acc)

/-- Modelled from the spec: splitting a follow-up string on top-level
commas only, so a comma inside a bracketed piece does not split it. -/
def topLevelSplit (s : String) : List String := topLevelSplitL s.data 0 []

/-! ### Materialization of one caller-supplied argument

The executor passes only the raw strings into the sandbox
(`_argsData = argsWithTypes.map(arg => arg.value)`), so the declared type
of an argument never reaches the in-sandbox materialization chain. -/

def materializeSpec (o : JsOracle) (a : ArgWithType) : JsValue :=
  parseSandboxArg o a.value

/-! ### Concrete oracles and inputs used by the closed theorems below

Each oracle fixes the host-runtime behavior on exactly the strings a
concrete scenario exercises, following the documented JavaScript semantics
of eval, JSON.parse and Number on those strings. -/

/-- A minimal host runtime: every delegated evaluation throws or yields
NaN, the transpiler is the identity, Phase 1 succeeds, and no entry is
bound.  Scenario oracles below override individual fields. -/
def baseOracle : JsOracle :=
  { transpileModule := fun c => .ok c,
    cleanOutput := fun s => s,
    evalParen := fun _ => none,
    evalRaw := fun _ => none,
    jsonParse := fun _ => none,
    toNumber := fun _ => .nan,
    parseDate := fun _ => none,
    matchTempArray := fun _ => none,
    matchTempFunc := fun _ => none,
    matchArrow := fun _ => none,
    mkFunction := fun _ _ => none,
    runDefine := fun _ => .ok (),
    funcSource := fun _ _ => .error "ReferenceError: entry is not defined",
    invokeEntry := fun _ _ _ _ => .error "ReferenceError: entry is not defined",
    invokeFunc := fun _ _ _ => .error "TypeError: not a function",
    isoOfDate := fun _ => "" }

/-- eval of the parenthesized literal keywords, as JavaScript evaluates
them. -/
def c3Oracle : JsOracle :=
  { baseOracle with
    evalParen := fun s =>
      if s = "true" then some (.bool true)
      else if s = "false" then some (.bool false)
      else if s = "null" then some .null
      else if s = "undefined" then some .undef
      else if s = "NaN" then some (.num .nan)
      else none }

/-- The runtime behavior of `function createMultiplier(factor) { return
x => x * factor; }`: eval of "(5)" is 5, calling the entry with 5 returns
the inner callable, calling that callable with 10 returns 50, and
Number("10") is 10. -/
def mulOracle : JsOracle :=
  { baseOracle with
    evalParen := fun s => if s = "5" then some (jn 5) else none,
    toNumber := fun s => if s = "10" then .int 10 else .nan,
    funcSource := fun _ fname =>
      if fname = "createMultiplier" then
        .ok "function createMultiplier(factor) \x7b return x => x * factor; \x7d"
      else .error ("ReferenceError: " ++ fname ++ " is not defined"),
    invokeEntry := fun _ fname _ args =>
      if fname = "createMultiplier" ∧ args = [jn 5] then .ok (.func "x => x * factor")
      else .error "unexpected call",
    invokeFunc := fun fsrc _ args =>
      if fsrc = "x => x * factor" ∧ args = [jn 10] then .ok (jn 50)
      else .error "unexpected call" }

/-- The request of the higher-order example: entry `createMultiplier`,
one argument "5" of declared type number, follow-up string "10". -/
def mulRequest : ExecuteRequest :=
  { functionCode := "function createMultiplier(factor) \x7b return x => x * factor; \x7d",
    functionName := "createMultiplier",
    argsWithTypes := [{ value := "5", type := "number" }],
    isAsync := false,
    testArgs := some "10" }

/-- JSON.parse behavior on "[1,2]" (and a throw on everything else, in
particular on the fragments "[1" and "2]"). -/
def c5Oracle : JsOracle :=
  { baseOracle with
    jsonParse := fun s => if s = "[1,2]" then some (.arr (jsList [jn 1, jn 2])) else none }

/-- A bound entry that throws synchronously when invoked. -/
def throwOracle : JsOracle :=
  { baseOracle with
    funcSource := fun _ _ => .ok "function boom() \x7b throw new Error(\"fail\") \x7d",
    invokeEntry := fun _ _ _ _ => .error "Error: fail" }

def boomRequest : ExecuteRequest :=
  { functionCode := "function boom() \x7b throw new Error(\"fail\") \x7d",
    functionName := "boom",
    argsWithTypes := [],
    isAsync := false,
    testArgs := none }

/-- The `toString()` text of `function f(a) { return [...a]; }` — its only
declared parameter `a` is not a rest parameter, but the body contains the
spread token "...". -/
def restInBodySource : String := "function f(a) \x7b return [...a]; \x7d"

/-- A parse oracle that always reports a whole-file grammar failure. -/
def parseAlwaysFail : String → Except String TsNode :=
  fun _ => .error "SyntaxFailure: unparseable program"

/-- The syntax tree of `function f(){ function g(){} }`: one top-level
function declaration whose body (reached by `ts.forEachChild`) contains a
second, nested function declaration; no classes anywhere. -/
def nestedFnAst : TsNode :=
  .otherNode (.cons
    (.funcDecl (some "f") [] none false 0 0 "function f() \x7b function g() \x7b\x7d \x7d"
      (.cons (.funcDecl (some "g") [] none false 0 0 "function g() \x7b\x7d" .nil) .nil))
    .nil)

/-- The syntax tree of a source with exactly two top-level function
declarations and nothing else. -/
def twoFnAst : TsNode :=
  .otherNode (.cons (.funcDecl (some "add") [] none false 0 0 "function add() \x7b\x7d" .nil)
             (.cons (.funcDecl (some "mul") [] none false 1 1 "function mul() \x7b\x7d" .nil) .nil))

/-- A 200-character callable source, used to exercise preview truncation. -/
def longFnSrc : String := ⟨List.replicate 200 'a'⟩

/-! ### Helper lemmas -/

theorem extractFunctionFromVariable_none (d : VarDeclNode) (h : isFuncInit d.initializer = false) :
    extractFunctionFromVariable d = none := by
  unfold extractFunctionFromVariable
  match hd : d.initializer with
  | none => rfl
  | some (.arrowFunction ps rt a) => rw [hd] at h; simp [isFuncInit] at h
  | some (.functionExpression ps rt a) => rw [hd] at h; simp [isFuncInit] at h
  | some .otherInit => rfl

theorem filterMap_var_none (decls : List VarDeclNode)
    (h : decls.any (fun d => isFuncInit d.initializer) = false) :
    decls.filterMap extractFunctionFromVariable = [] := by
  induction decls with
  | nil => rfl
  | cons d rest ih =>
    simp only [List.any_cons, Bool.or_eq_false_iff] at h
    simp [List.filterMap_cons, extractFunctionFromVariable_none d h.1, ih h.2]

mutual
theorem visit_names_aux : ∀ t : TsNode, hasClassDecl t = false → hasFuncVar t = false →
    (visitNode t).map FunctionInfo.name = funcDeclNames t
  | .funcDecl (some n) ps rt a s e txt cs, h1, h2 => by
    rw [visitNode, funcDeclNames, List.map_cons]
    rw [visit_names_list_aux cs (by simpa [hasClassDecl] using h1) (by simpa [hasFuncVar] using h2)]
    rfl
  | .funcDecl none ps rt a s e txt cs, h1, h2 => by
    rw [visitNode, funcDeclNames]
    exact visit_names_list_aux cs (by simpa [hasClassDecl] using h1) (by simpa [hasFuncVar] using h2)
  | .varStmt decls cs, h1, h2 => by
    rw [visitNode, funcDeclNames]
    rw [hasFuncVar, Bool.or_eq_false_iff] at h2
    rw [filterMap_var_none decls h2.1, List.nil_append]
    exact visit_names_list_aux cs (by simpa [hasClassDecl] using h1) h2.2
  | .classDecl nm ms s e txt cs, h1, h2 => by
    rw [hasClassDecl] at h1
    exact absurd h1 (by simp)
  | .otherNode cs, h1, h2 => by
    rw [visitNode, funcDeclNames]
    exact visit_names_list_aux cs (by simpa [hasClassDecl] using h1) (by simpa [hasFuncVar] using h2)

theorem visit_names_list_aux : ∀ l : TsNodeList, hasClassDeclList l = false →
    hasFuncVarList l = false →
    (visitList l).map FunctionInfo.name = funcDeclNamesList l
  | .nil, _, _ => rfl
  | .cons n ns, h1, h2 => by
    rw [hasClassDeclList, Bool.or_eq_false_iff] at h1
    rw [hasFuncVarList, Bool.or_eq_false_iff] at h2
    rw [visitList, funcDeclNamesList, List.map_append]
    rw [visit_names_aux n h1.1 h2.1, visit_names_list_aux ns h1.2 h2.2]
end

theorem filterMap_method_names (cn : String) (ms : List MemberNode) :
    (ms.filterMap (extractMethodInfo cn)).map FunctionInfo.name =
      (methodNames ms).map (fun n => cn ++ "." ++ n) := by
  induction ms with
  | nil => rfl
  | cons m rest ih => cases m <;> simp [methodNames, extractMethodInfo, ih]

theorem filterMap_method_owner (cn : String) (ms : List MemberNode) :
    (ms.filterMap (extractMethodInfo cn)).map FunctionInfo.className =
      (methodNames ms).map (fun _ => some cn) := by
  induction ms with
  | nil => rfl
  | cons m rest ih => cases m <;> simp [methodNames, extractMethodInfo, ih]

theorem filterMap_method_kind (cn : String) (ms : List MemberNode) :
    (ms.filterMap (extractMethodInfo cn)).map FunctionInfo.isClass =
      (methodNames ms).map (fun _ => false) := by
  induction ms with
  | nil => rfl
  | cons m rest ih => cases m <;> simp [methodNames, extractMethodInfo, ih]

theorem startsWith_new_shape (t : String) (h : strStartsWith t "new " = true) :
    ∃ rest, t.data = 'n' :: 'e' :: 'w' :: ' ' :: rest := by
  match hdata : t.data with
  | [] => rw [strStartsWith, hdata] at h; simp [isPrefixL] at h
  | [c1] => rw [strStartsWith, hdata] at h; simp [isPrefixL] at h
  | [c1, c2] => rw [strStartsWith, hdata] at h; simp [isPrefixL] at h
  | [c1, c2, c3] => rw [strStartsWith, hdata] at h; simp [isPrefixL] at h
  | c1 :: c2 :: c3 :: c4 :: rest =>
    rw [strStartsWith, hdata] at h
    simp only [isPrefixL, Bool.and_eq_true, decide_eq_true_eq] at h
    obtain ⟨h1, h2, h3, h4, -⟩ := h
    exact ⟨rest, by rw [← h1, ← h2, ← h3, ← h4]⟩

theorem startsWith_new_ne (t : String) (h : strStartsWith t "new " = true) :
    t ≠ "" ∧ t ≠ "true" ∧ t ≠ "false" ∧ t ≠ "null" ∧ t ≠ "undefined" ∧ t ≠ "NaN" ∧
    t ≠ "Infinity" ∧ t ≠ "-Infinity" ∧
    strStartsWith t "\x7b" = false ∧ strStartsWith t "[" = false := by
  obtain ⟨rest, hd⟩ := startsWith_new_shape t h
  have hne : ∀ s₂ : String, ('n' :: 'e' :: 'w' :: ' ' :: rest ≠ s₂.data) → t ≠ s₂ := by
    intro s₂ hx heq
    exact hx (by rw [← hd, heq])
  refine ⟨hne _ (by simp), hne _ (by simp), hne _ (by simp), hne _ (by simp),
          hne _ (by simp), hne _ (by simp), hne _ (by simp), hne _ (by simp), ?_, ?_⟩
  · rw [strStartsWith, hd]; simp [isPrefixL]
  · rw [strStartsWith, hd]; simp [isPrefixL]

theorem looksDateType_false (ty : String) (h : strContainsSub ty "Date" = false) :
    looksDateType ty = false := by
  rw [looksDateType, h]
  have : ty ≠ "Date" := by
    intro heq; rw [heq] at h; exact absurd h (by decide)
  simp [this]

/-! ### Claim theorems -/

/-- C1: `executeFunction` never lets a fault escape: for every host-runtime
behavior and request, the outcome is a normal record with a nonnegative
elapsed time, success carries a serialized value and no error message,
failure carries an error message and no value; in particular any failure of
Phase 2 — and specifically a synchronous throw of the invoked entry — is
converted to a failed outcome with the thrown message, never re-raised. -/
theorem execute_never_raises (o : JsOracle) (r : ExecuteRequest) (t0 t1 : Int) (hm : t0 ≤ t1) :
    0 ≤ (executeFunction o r t0 t1).executionTime ∧
    ((executeFunction o r t0 t1).success = true ∧ (executeFunction o r t0 t1).error = none ∧
       (∃ v, (executeFunction o r t0 t1).result = some v) ∨
     (executeFunction o r t0 t1).success = false ∧ (executeFunction o r t0 t1).result = none ∧
       ∃ m, (executeFunction o r t0 t1).error = some m) ∧
    (∀ js msg, o.transpileModule r.functionCode = .ok js → o.runDefine js = .ok () →
      phase2 o js (buildContext r) r.isAsync = .error msg →
      executeFunction o r t0 t1 =
        { success := false, result := none, error := some msg, executionTime := t1 - t0 }) ∧
    (∀ js fs msg, o.transpileModule r.functionCode = .ok js → o.runDefine js = .ok () →
      o.funcSource js r.functionName = .ok fs →
      o.invokeEntry js r.functionName r.isAsync
        (determineCallArgs fs ((r.argsWithTypes.map (fun a => a.value)).map (parseSandboxArg o)))
        = .error msg →
      executeFunction o r t0 t1 =
        { success := false, result := none, error := some msg, executionTime := t1 - t0 }) := by
  refine ⟨?_, ?_, ?_, ?_⟩
  · simp only [executeFunction]
    cases (match o.transpileModule r.functionCode with
           | .error e => .error e
           | .ok jsCode =>
             match o.runDefine jsCode with
             | .error e => .error e
             | .ok _ => phase2 o jsCode (buildContext r) r.isAsync : Except String JsValue) with
    | error e => simp; omega
    | ok v => simp; omega
  · simp only [executeFunction]
    cases (match o.transpileModule r.functionCode with
           | .error e => .error e
           | .ok jsCode =>
             match o.runDefine jsCode with
             | .error e => .error e
             | .ok _ => phase2 o jsCode (buildContext r) r.isAsync : Except String JsValue) with
    | error e => simp
    | ok v => simp
  · intro js msg hT hD hP
    simp only [executeFunction, hT, hD, hP]
  · intro js fs msg hT hD hF hI
    have hP : phase2 o js (buildContext r) r.isAsync = .error msg := by
      simp only [phase2, buildContext, hF, hI]
    simp only [executeFunction, hT, hD, hP]

/-- C1 witness: a bound entry that throws synchronously yields the failed
outcome with the thrown message and a nonnegative elapsed time. -/
theorem execute_never_raises_witness :
    executeFunction throwOracle boomRequest 0 5 =
      { success := false, result := none, error := some "Error: fail", executionTime := 5 } ∧
    0 ≤ (executeFunction throwOracle boomRequest 0 5).executionTime :=
  ⟨(execute_never_raises throwOracle boomRequest 0 5 (by decide)).2.2.2
      boomRequest.functionCode "function boom() \x7b throw new Error(\"fail\") \x7d"
      "Error: fail" rfl rfl rfl rfl,
   (execute_never_raises throwOracle boomRequest 0 5 (by decide)).1⟩

/-- C2: `parseFunctions` propagates a whole-source parse failure to the
caller as the failure itself (no descriptor list), and on a successful
parse returns the visitor walk of the tree — an ordered descriptor list. -/
theorem extract_failure_contract (parse : String → Except String TsNode) (src : String) :
    (∀ e, parse src = .error e → parseFunctions parse src = .error e) ∧
    (∀ ast, parse src = .ok ast → parseFunctions parse src = .ok (visitNode ast)) := by
  constructor <;> intro x h <;> simp [parseFunctions, h]

/-- C2 witness: an unparseable source is reported as the syntax failure. -/
theorem extract_failure_contract_witness :
    parseFunctions parseAlwaysFail "function (" = .error "SyntaxFailure: unparseable program" :=
  (extract_failure_contract parseAlwaysFail "function (").1 _ rfl

/-- C3: in-sandbox materialization.  Under the documented JavaScript
behavior of eval on the parenthesized literal keywords, the raw texts
true, false, null, undefined, NaN materialize to exactly the corresponding
literal values, for every declared type (the engine hands only the raw
strings to the sandbox); blank text yields undefined; object/array-shaped
text that fails expression evaluation falls to strict JSON parsing; text
failing every earlier heuristic falls to numeric coercion, then to quote
stripping, then to the opaque trimmed string itself. -/
theorem sandbox_materialization_keywords (o : JsOracle) (ty : String)
    (h1 : o.evalParen "true" = some (.bool true))
    (h2 : o.evalParen "false" = some (.bool false))
    (h3 : o.evalParen "null" = some .null)
    (h4 : o.evalParen "undefined" = some .undef)
    (h5 : o.evalParen "NaN" = some (.num .nan)) :
    materializeSpec o ⟨"true", ty⟩ = .bool true ∧
    materializeSpec o ⟨"false", ty⟩ = .bool false ∧
    materializeSpec o ⟨"null", ty⟩ = .null ∧
    materializeSpec o ⟨"undefined", ty⟩ = .undef ∧
    materializeSpec o ⟨"NaN", ty⟩ = .num .nan ∧
    (∀ ty₂, materializeSpec o ⟨"", ty₂⟩ = .undef) ∧
    (∀ ty₂, materializeSpec o ⟨"   ", ty₂⟩ = .undef) ∧
    (∀ v, o.evalParen "[3, 4]" = none → o.jsonParse "[3, 4]" = some v →
       materializeSpec o ⟨"[3, 4]", ty⟩ = v) ∧
    (o.evalParen "hello(" = none → o.toNumber "hello(" = .nan →
       materializeSpec o ⟨"hello(", ty⟩ = .str "hello(") ∧
    (o.evalParen "\"a\" x \"b\"" = none → o.toNumber "\"a\" x \"b\"" = .nan →
       materializeSpec o ⟨"\"a\" x \"b\"", ty⟩ = .str "a\" x \"b") := by
  have key : ∀ (raw : String) (w : JsValue), strTrim raw = raw → hasTypeAnn raw = false →
      raw ≠ "" → o.evalParen raw = some w → parseSandboxArg o raw = w := by
    intro raw w e1 e2 e3 h
    simp only [parseSandboxArg, e1, e2, if_neg e3, Bool.false_eq_true, if_false, h]
  refine ⟨key "true" (.bool true) (by decide) (by decide) (by decide) h1,
          key "false" (.bool false) (by decide) (by decide) (by decide) h2,
          key "null" .null (by decide) (by decide) (by decide) h3,
          key "undefined" .undef (by decide) (by decide) (by decide) h4,
          key "NaN" (.num .nan) (by decide) (by decide) (by decide) h5,
          ?_, ?_, ?_, ?_, ?_⟩
  · intro ty₂
    have e1 : strTrim "" = "" := by decide
    simp only [materializeSpec, parseSandboxArg, e1, if_pos rfl, if_true]
  · intro ty₂
    have e1 : strTrim "   " = "" := by decide
    simp only [materializeSpec, parseSandboxArg, e1, if_pos rfl, if_true]
  · intro v he hj
    have e1 : strTrim "[3, 4]" = "[3, 4]" := by decide
    have e2 : hasTypeAnn "[3, 4]" = false := by decide
    have e3 : ("[3, 4]" : String) ≠ "" := by decide
    have e4 : (strStartsWith "[3, 4]" "\x7b" || strStartsWith "[3, 4]" "[") = true := by decide
    simp only [materializeSpec, parseSandboxArg, e1, e2, if_neg e3, Bool.false_eq_true, if_false,
      he, e4, if_true, hj]
  · intro he hn
    have e1 : strTrim "hello(" = "hello(" := by decide
    have e2 : hasTypeAnn "hello(" = false := by decide
    have e3 : ("hello(" : String) ≠ "" := by decide
    have e4 : (strStartsWith "hello(" "\x7b" || strStartsWith "hello(" "[") = false := by decide
    have e5 : isQuoted "hello(" = false := by decide
    simp only [materializeSpec, parseSandboxArg, e1, e2, if_neg e3, Bool.false_eq_true, if_false,
      he, e4, hn, e5]
    rw [if_neg (by decide : ("hello(" : String) ≠ "true"),
        if_neg (by decide : ("hello(" : String) ≠ "false"),
        if_neg (by decide : ("hello(" : String) ≠ "null"),
        if_neg (by decide : ("hello(" : String) ≠ "undefined"),
        if_neg (by decide : ("hello(" : String) ≠ "NaN"),
        if_neg (by decide : ("hello(" : String) ≠ "Infinity")]
  · intro he hn
    have e1 : strTrim "\"a\" x \"b\"" = "\"a\" x \"b\"" := by decide
    have e2 : hasTypeAnn "\"a\" x \"b\"" = false := by decide
    have e3 : ("\"a\" x \"b\"" : String) ≠ "" := by decide
    have e4 : (strStartsWith "\"a\" x \"b\"" "\x7b" || strStartsWith "\"a\" x \"b\"" "[") = false := by
      decide
    have e5 : isQuoted "\"a\" x \"b\"" = true := by decide
    have e6 : stripQuotes "\"a\" x \"b\"" = "a\" x \"b" := by decide
    simp only [materializeSpec, parseSandboxArg, e1, e2, if_neg e3, Bool.false_eq_true, if_false,
      he, e4, hn,
      if_neg (by decide : ("\"a\" x \"b\"" : String) ≠ "true"),
      if_neg (by decide : ("\"a\" x \"b\"" : String) ≠ "false"),
      if_neg (by decide : ("\"a\" x \"b\"" : String) ≠ "null"),
      if_neg (by decide : ("\"a\" x \"b\"" : String) ≠ "undefined"),
      if_neg (by decide : ("\"a\" x \"b\"" : String) ≠ "NaN"),
      if_neg (by decide : ("\"a\" x \"b\"" : String) ≠ "Infinity"),
      e5, if_true, e6]

/-- C3 witness: the keyword literals under the concrete literal-eval
oracle, across different declared types. -/
theorem sandbox_materialization_keywords_witness :
    materializeSpec c3Oracle ⟨"true", "number"⟩ = .bool true ∧
    materializeSpec c3Oracle ⟨"undefined", "string"⟩ = .undef ∧
    materializeSpec c3Oracle ⟨"NaN", "(x: T) => boolean"⟩ = .num .nan :=
  ⟨(sandbox_materialization_keywords c3Oracle "number" rfl rfl rfl rfl rfl).1,
   (sandbox_materialization_keywords c3Oracle "string" rfl rfl rfl rfl rfl).2.2.2.1,
   (sandbox_materialization_keywords c3Oracle "(x: T) => boolean" rfl rfl rfl rfl rfl).2.2.2.2.1⟩

/-- C4 counterexample: the claim ties spreading to a variadic final
declared parameter, but the engine tests whether the entry source text
contains "..." anywhere.  For `function f(a) { return [...a]; }` — whose
only declared parameter `a` is not a rest parameter, while the body
contains a spread — a single array argument IS spread into positional
arguments, where the claim requires it to be passed positionally as
given. -/
theorem spread_claim_false :
    specFinalParamVariadic ["a"] = false ∧
    determineCallArgs restInBodySource [JsValue.arr (jsList [jn 1, jn 2, jn 3])]
      = [jn 1, jn 2, jn 3] ∧
    ([jn 1, jn 2, jn 3] : List JsValue) ≠ [JsValue.arr (jsList [jn 1, jn 2, jn 3])] :=
  ⟨by decide, by decide, by decide⟩

/-- C4 amended: the engine spreads a single sequence-valued argument into
positional arguments exactly when the entry source text (its `toString`)
contains the substring "..." anywhere and exactly one materialized argument
was supplied and it is an array; in every other case the materialized
arguments are passed positionally as given. -/
theorem spread_condition_amended (funcStr : String) :
    (∀ xs, strContainsSub funcStr "..." = true →
       determineCallArgs funcStr [JsValue.arr xs] = jsToList xs) ∧
    (strContainsSub funcStr "..." = false → ∀ args, determineCallArgs funcStr args = args) ∧
    (∀ args, args.length ≠ 1 → determineCallArgs funcStr args = args) ∧
    (∀ v, (∀ xs, v ≠ JsValue.arr xs) → determineCallArgs funcStr [v] = [v]) := by
  refine ⟨?_, ?_, ?_, ?_⟩
  · intro xs h
    simp [determineCallArgs, h]
  · intro h args
    match args with
    | [] => rfl
    | [v] => cases v <;> simp [determineCallArgs, h]
    | v :: w :: t => cases v <;> rfl
  · intro args h
    match args with
    | [] => rfl
    | [v] => simp at h
    | v :: w :: t => cases v <;> rfl
  · intro v h
    cases v <;> first
      | rfl
      | exact absurd rfl (h _)

/-- C4 witness: a rest-parameter entry with one array argument is spread;
a plain two-parameter entry gets its two arguments positionally. -/
theorem spread_condition_amended_witness :
    determineCallArgs "function sum(...nums) \x7b return 0; \x7d"
      [JsValue.arr (jsList [jn 1, jn 2, jn 3])] = [jn 1, jn 2, jn 3] ∧
    determineCallArgs "function add(a, b) \x7b return a + b; \x7d" [jn 2, jn 3] = [jn 2, jn 3] :=
  ⟨(spread_condition_amended "function sum(...nums) \x7b return 0; \x7d").1
      (jsList [jn 1, jn 2, jn 3]) (by decide),
   (spread_condition_amended "function add(a, b) \x7b return a + b; \x7d").2.2.1
      [jn 2, jn 3] (by decide)⟩

/-- C5 counterexample: the claim says the follow-up string is split on
top-level commas respecting nested brackets, so "[1,2]" would stay one
piece (a JSON array).  The engine splits at every comma: "[1,2]" becomes
the fragments "[1" and "2]", which materialize as two opaque strings, not
as one array. -/
theorem followup_split_claim_false :
    strSplitComma "[1,2]" = ["[1", "2]"] ∧
    topLevelSplit "[1,2]" = ["[1,2]"] ∧
    followUpValues c5Oracle "[1,2]" = [.str "[1", .str "2]"] ∧
    (topLevelSplit "[1,2]").map (parseTestArg c5Oracle) = [.arr (jsList [jn 1, jn 2])] ∧
    followUpValues c5Oracle "[1,2]" ≠ (topLevelSplit "[1,2]").map (parseTestArg c5Oracle) := by
  decide

/-- C5 amended: when the result is callable and a non-empty follow-up
string was supplied, the engine splits that string at EVERY comma (with no
bracket awareness), materializes each piece (number, then JSON, then the
raw piece), and invokes the returned callable with those values, the final
outcome reflecting the inner call; the createMultiplier example with
argument "5" and follow-up "10" yields success with value 50. -/
theorem followup_example_amended :
    executeFunction mulOracle mulRequest 0 7 =
      { success := true, result := some (jn 50), error := none, executionTime := 7 } ∧
    followUpValues mulOracle "10" = [jn 10] ∧
    strSplitComma "10" = ["10"] ∧
    strSplitComma "f(1,2)" = ["f(1", "2)"] := by
  decide

/-- C6 counterexample: the claim counts top-level function declarations,
but the visitor recurses into every child node, so nested declarations are
extracted too.  The source `function f(){ function g(){} }` has one
top-level function declaration and no classes, yet extraction yields two
descriptors. -/
theorem extract_toplevel_claim_false :
    hasClassDecl nestedFnAst = false ∧
    topLevelFuncDeclCount nestedFnAst = 1 ∧
    (visitNode nestedFnAst).length = 2 ∧
    (visitNode nestedFnAst).length ≠ topLevelFuncDeclCount nestedFnAst := by
  decide

/-- C6 amended: for a source whose tree contains no class declarations and
no function-valued variable bindings, extraction yields exactly one
descriptor per NAMED function declaration at ANY nesting depth, named and
ordered by the document-order (preorder) walk of the tree. -/
theorem extract_all_depth_names (t : TsNode) (h1 : hasClassDecl t = false)
    (h2 : hasFuncVar t = false) :
    (visitNode t).map FunctionInfo.name = funcDeclNames t ∧
    (visitNode t).length = (funcDeclNames t).length := by
  refine ⟨visit_names_aux t h1 h2, ?_⟩
  rw [← visit_names_aux t h1 h2, List.length_map]

/-- C6 witness: two top-level declarations, two descriptors in order. -/
theorem extract_all_depth_names_witness :
    (visitNode twoFnAst).map FunctionInfo.name = ["add", "mul"] ∧
    (visitNode twoFnAst).length = 2 :=
  ⟨(extract_all_depth_names twoFnAst (by decide) (by decide)).1.trans (by decide),
   (extract_all_depth_names twoFnAst (by decide) (by decide)).2.trans (by decide)⟩

/-- C7: a named class yields exactly one constructor-kind descriptor
(name and returnType the class name, parameters those of the first
declared constructor or empty) immediately followed by one method-kind
descriptor per method member, in member (document) order, each named
ClassName.method and owned by the class. -/
theorem class_descriptor_layout (cn : String) (ms : List MemberNode) (s e : Nat)
    (txt : String) (cs : TsNodeList) :
    visitNode (.classDecl (some cn) ms s e txt cs) =
      extractClassInfo cn ms s e txt :: (ms.filterMap (extractMethodInfo cn) ++ visitList cs) ∧
    (extractClassInfo cn ms s e txt).isClass = true ∧
    (extractClassInfo cn ms s e txt).name = cn ∧
    (extractClassInfo cn ms s e txt).returnType = cn ∧
    (extractClassInfo cn ms s e txt).parameters = (firstCtorParams ms).map paramInfoOf ∧
    (ms.filterMap (extractMethodInfo cn)).map FunctionInfo.name =
      (methodNames ms).map (fun n => cn ++ "." ++ n) ∧
    (ms.filterMap (extractMethodInfo cn)).map FunctionInfo.className =
      (methodNames ms).map (fun _ => some cn) ∧
    (ms.filterMap (extractMethodInfo cn)).map FunctionInfo.isClass =
      (methodNames ms).map (fun _ => false) ∧
    (ms.filterMap (extractMethodInfo cn)).length = (methodNames ms).length := by
  refine ⟨by rw [visitNode]; simp, rfl, rfl, rfl, rfl,
    filterMap_method_names cn ms, filterMap_method_owner cn ms, filterMap_method_kind cn ms, ?_⟩
  simpa using congrArg List.length (filterMap_method_names cn ms)

/-- C8 counterexample: the claim says every heuristic failure of the
standalone coercion degrades to the raw text, never a null substitute.
But a "new "-prefixed value whose evaluation throws returns null, and a
function-typed parameter whose value has no function syntax returns null —
not the raw text. -/
theorem coerce_null_claim_false :
    parseArgumentValue baseOracle "new Foo()" "any" = .null ∧
    JsValue.null ≠ .str "new Foo()" ∧
    parseArgumentValue baseOracle "hello" "(x: number) => number" = .null ∧
    JsValue.null ≠ .str "hello" := by
  decide

/-- C8 amended: `parseArgumentValue` is total (the body is wrapped in a
catch returning the trimmed text), and degrades as follows: blank input
yields the undefined sentinel; a "new "-prefixed value whose evaluation
throws yields null; a function-typed parameter whose value lacks function
syntax yields null; and a value failing every heuristic under a
non-function, non-date type falls back to the raw trimmed text. -/
theorem coerce_degradation_modes (o : JsOracle) (v ty : String) :
    (strTrim v = "" → parseArgumentValue o v ty = .undef) ∧
    (∀ t, t = strTrim v → strStartsWith t "new " = true → strContainsSub ty "Date" = false →
       o.evalRaw t = none → parseArgumentValue o v ty = .null) ∧
    (looksFnType ty = true → strContainsSub ty "Date" = false →
       parseArgumentValue o "hello" ty = .null) ∧
    (looksFnType ty = false → strContainsSub ty "Date" = false → o.toNumber "hello" = .nan →
       parseArgumentValue o "hello" ty = .str "hello") := by
  refine ⟨?_, ?_, ?_, ?_⟩
  · intro h
    rw [parseArgumentValue, if_pos (Or.inr h)]
  · intro t ht hnew hdate hev
    obtain ⟨hne0, hk1, hk2, hk3, hk4, hk5, hk6, hk7, hsb, hsq⟩ := startsWith_new_ne t hnew
    have hvne : ¬(v = "" ∨ strTrim v = "") := by
      rintro (h0 | h0)
      · rw [h0] at ht; exact hne0 (by rw [ht]; decide)
      · rw [h0] at ht; exact hne0 ht
    simp only [parseArgumentValue]
    rw [if_neg hvne, ← ht]
    have hfa : coerceFuncArray o t = none := by
      rw [coerceFuncArray, hsq]
      simp
    rw [hfa, hsb, hsq]
    simp only [Bool.or_self, Bool.false_eq_true, if_false]
    rw [if_neg hk1, if_neg hk2, if_neg hk3, if_neg hk4, if_neg hk5, if_neg hk6, if_neg hk7]
    rw [looksDateType_false ty hdate]
    simp only [Bool.false_eq_true, if_false]
    rw [if_pos hnew, hev]
  · intro hfn hdate
    have hvne : ¬(("hello" : String) = "" ∨ strTrim "hello" = "") := by decide
    have htr : strTrim "hello" = "hello" := by decide
    simp only [parseArgumentValue]
    rw [if_neg hvne, htr]
    have hfa : coerceFuncArray o "hello" = none := by
      rw [coerceFuncArray]; simp [show strStartsWith "hello" "[" = false by decide]
    rw [hfa]
    rw [show (strStartsWith "hello" "\x7b" || strStartsWith "hello" "[") = false by decide]
    simp only [Bool.false_eq_true, if_false]
    rw [if_neg (by decide : ("hello" : String) ≠ "true"),
        if_neg (by decide : ("hello" : String) ≠ "false"),
        if_neg (by decide : ("hello" : String) ≠ "null"),
        if_neg (by decide : ("hello" : String) ≠ "undefined"),
        if_neg (by decide : ("hello" : String) ≠ "NaN"),
        if_neg (by decide : ("hello" : String) ≠ "Infinity"),
        if_neg (by decide : ("hello" : String) ≠ "-Infinity")]
    rw [looksDateType_false ty hdate]
    simp only [Bool.false_eq_true, if_false]
    rw [if_neg (by decide : ¬(strStartsWith "hello" "new " = true)), if_pos hfn]
    rw [coerceFunction]
    rw [show (strContainsSub "hello" "=>" || strStartsWith "hello" "function") = false by decide]
    simp
  · intro hfn hdate hnum
    have hvne : ¬(("hello" : String) = "" ∨ strTrim "hello" = "") := by decide
    have htr : strTrim "hello" = "hello" := by decide
    simp only [parseArgumentValue]
    rw [if_neg hvne, htr]
    have hfa : coerceFuncArray o "hello" = none := by
      rw [coerceFuncArray]; simp [show strStartsWith "hello" "[" = false by decide]
    rw [hfa]
    rw [show (strStartsWith "hello" "\x7b" || strStartsWith "hello" "[") = false by decide]
    simp only [Bool.false_eq_true, if_false]
    rw [if_neg (by decide : ("hello" : String) ≠ "true"),
        if_neg (by decide : ("hello" : String) ≠ "false"),
        if_neg (by decide : ("hello" : String) ≠ "null"),
        if_neg (by decide : ("hello" : String) ≠ "undefined"),
        if_neg (by decide : ("hello" : String) ≠ "NaN"),
        if_neg (by decide : ("hello" : String) ≠ "Infinity"),
        if_neg (by decide : ("hello" : String) ≠ "-Infinity")]
    rw [looksDateType_false ty hdate]
    simp only [Bool.false_eq_true, if_false]
    rw [if_neg (by decide : ¬(strStartsWith "hello" "new " = true)), hfn]
    simp only [Bool.false_eq_true, if_false]
    rw [hnum]
    rw [show isQuoted "hello" = false by decide]
    simp [jsIsNan]

/-- C8 witness: the four degradation modes at concrete inputs. -/
theorem coerce_degradation_modes_witness :
    parseArgumentValue baseOracle "  " "number" = .undef ∧
    parseArgumentValue baseOracle "new Foo()" "number" = .null ∧
    parseArgumentValue baseOracle "hello" "(x: T) => T" = .null ∧
    parseArgumentValue baseOracle "hello" "string" = .str "hello" :=
  ⟨(coerce_degradation_modes baseOracle "  " "number").1 (by decide),
   (coerce_degradation_modes baseOracle "new Foo()" "number").2.1 "new Foo()"
      (by decide) (by decide) (by decide) rfl,
   (coerce_degradation_modes baseOracle "hello" "(x: T) => T").2.2.1 (by decide) (by decide),
   (coerce_degradation_modes baseOracle "hello" "string").2.2.2 (by decide) (by decide) rfl⟩

/-- C9: each execute call is self-contained.  The executor instance
carries no mutable state across calls, so two back-to-back calls produce
exactly the outcomes of each call run alone and leave the instance state
unchanged; the evaluation context is built fresh from the request alone;
and the sandbox allow-list binds no capability that reaches the outer
process. -/
theorem execute_isolation (o : JsOracle) (s : ExecutorState) (r₁ r₂ : ExecuteRequest)
    (a0 a1 b0 b1 : Int) :
    (execTwice o s r₁ r₂ a0 a1 b0 b1).1.1 = executeFunction o r₁ a0 a1 ∧
    (execTwice o s r₁ r₂ a0 a1 b0 b1).1.2 = executeFunction o r₂ b0 b1 ∧
    (execTwice o s r₁ r₂ a0 a1 b0 b1).2 = s ∧
    (buildContext r₁).argsData = r₁.argsWithTypes.map (fun a => a.value) ∧
    (buildContext r₁).testArgsStr = r₁.testArgs.getD "" ∧
    (buildContext r₁).functionName = r₁.functionName ∧
    sandboxGlobalNames.contains "require" = false ∧
    sandboxGlobalNames.contains "process" = false ∧
    sandboxGlobalNames.contains "fs" = false ∧
    sandboxGlobalNames.contains "module" = false ∧
    sandboxGlobalNames.contains "fetch" = false :=
  ⟨rfl, rfl, rfl, rfl, rfl, rfl, by decide, by decide, by decide, by decide, by decide⟩

/-- C10: a callable result serializes to a record (never the callable
itself) whose source-preview field is the full source when it is at most
150 characters and otherwise exactly the first 150 characters followed by
"..." — so the preview never exceeds 153 characters. -/
theorem serialize_callable_preview (o : JsOracle) (src : String) :
    serializeResult o (.func src) =
      .obj (.cons "_type" (.str "function")
           (.cons "_hint" (.str "返回了一个函数（高阶函数）")
           (.cons "_source" (.str (sourcePreview src))
           (.cons "_suggestion"
             (.str "提示：这是一个高阶函数，返回了另一个函数。如需测试返回的函数，请创建一个包装函数。") .nil)))) ∧
    (src.data.length ≤ 150 → sourcePreview src = src) ∧
    (150 < src.data.length →
       sourcePreview src = (⟨src.data.take 150⟩ : String) ++ "..." ∧
       (sourcePreview src).data.length = 153) ∧
    (sourcePreview src).data.length ≤ 153 ∧
    (∀ s₂, serializeResult o (.func src) ≠ .func s₂) := by
  refine ⟨rfl, ?_, ?_, ?_, ?_⟩
  · intro h
    rw [sourcePreview, if_neg (by omega)]
  · intro h
    refine ⟨by rw [sourcePreview, if_pos (by omega)], ?_⟩
    rw [sourcePreview, if_pos (by omega), String.data_append]
    show ((src.data.take 150) ++ "...".data).length = 153
    rw [List.length_append, List.length_take]
    have h3 : ("...".data).length = 3 := rfl
    omega
  · rw [sourcePreview]
    by_cases h : src.data.length > 150
    · rw [if_pos h, String.data_append]
      show ((src.data.take 150) ++ "...".data).length ≤ 153
      rw [List.length_append, List.length_take]
      have h3 : ("...".data).length = 3 := rfl
      omega
    · rw [if_neg h]
      omega
  · intro s₂
    simp [serializeResult]

/-- C10 witness: a short source passes through whole; a 200-character
source is truncated to exactly 153 characters. -/
theorem serialize_callable_preview_witness :
    sourcePreview "x => x * factor" = "x => x * factor" ∧
    (sourcePreview longFnSrc).data.length = 153 :=
  ⟨(serialize_callable_preview baseOracle "x => x * factor").2.1 (by decide),
   ((serialize_callable_preview baseOracle longFnSrc).2.2.1 (by
      have h200 : longFnSrc.data.length = 200 := by
        show (List.replicate 200 'a').length = 200
        rw [List.length_replicate]
      omega)).2⟩
